import Mathlib

/-!
Verification of the axis-aligned 2D collision handler (`colhandler.py`).

The embedding below is a shallow model of the handler over exact rational
arithmetic (`ℚ` standing for Python floats; the source performs real-number
computations whose float rounding is outside the model).  Directions are
integers 0..3 (left, top, right, bottom, clockwise), as in the source.

Data model:
* a stored line is `(perp, para0, para1)` — `CLine`;
* a shape is four buckets of lines, one per direction — `Lines4`
  (`Shape.lines` in the source);
* a body (`StaticObject` / `Object`) is `Obj`: the `isObject` flag records
  which constructor the Python object was made with (`isinstance(o, Object)`
  in `_cache_shapes`), `mass : Option ℚ` models `None` = "infinite" mass;
* the handler state is `World`, holding the body list, `err`, the touching
  relation, plus the loop-local state of `update()` (`remaining_vel`,
  `total_tr`) and two ghost fields used purely for specification
  (`moveLog`: the translations applied to each body by the movement phase,
  `hits`: the bodies whose collisions were handled).
-/

/-- A stored axis-aligned line: perpendicular position and the two
parallel-axis endpoints, as kept in `Shape.lines` buckets. -/
structure CLine where
  pr : ℚ
  pl0 : ℚ
  pl1 : ℚ
  deriving DecidableEq, Repr

/-- The four per-direction line buckets of a `Shape` (`Shape.lines`). -/
structure Lines4 where
  l0 : List CLine
  l1 : List CLine
  l2 : List CLine
  l3 : List CLine
  deriving DecidableEq, Repr

namespace Lines4

/-- Bucket lookup by direction (directions are taken mod 4, as all call
sites in the source use values 0..3). -/
def get (L : Lines4) (d : Nat) : List CLine :=
  match d % 4 with
  | 0 => L.l0
  | 1 => L.l1
  | 2 => L.l2
  | _ => L.l3

def empty : Lines4 := ⟨[], [], [], []⟩

/-- Append a line to the bucket of direction `d` (`ls[i].append` in
`Shape.__init__`). -/
def push (L : Lines4) (d : Nat) (l : CLine) : Lines4 :=
  match d % 4 with
  | 0 => { L with l0 := L.l0 ++ [l] }
  | 1 => { L with l1 := L.l1 ++ [l] }
  | 2 => { L with l2 := L.l2 ++ [l] }
  | _ => { L with l3 := L.l3 ++ [l] }

end Lines4

/-- Translate one line: the perpendicular velocity component shifts `perp`,
the parallel component shifts both endpoints (`Shape._move`, inner loop). -/
def moveLine (vpr vpl : ℚ) (l : CLine) : CLine :=
  ⟨l.pr + vpr, l.pl0 + vpl, l.pl1 + vpl⟩

namespace Shape

/-- Model of `Shape.__init__`: store each `(direction, perp, para0, para1)` input in
the bucket of its direction, swapping the endpoints when `para0 > para1`. -/
def init (inp : List (Nat × ℚ × ℚ × ℚ)) : Lines4 :=
  inp.foldl
    (fun L q =>
      let d := q.1
      let pr := q.2.1
      let pl0 := q.2.2.1
      let pl1 := q.2.2.2
      if pl0 > pl1 then L.push d ⟨pr, pl1, pl0⟩ else L.push d ⟨pr, pl0, pl1⟩)
    Lines4.empty

/-- Model of `Shape._move`: translate every stored line by the `(x, y)` velocity.
For bucket `i` the perpendicular component is `v[i % 2]` and the parallel
component is `v[(i + 1) % 2]`. -/
def move (v : ℚ × ℚ) (L : Lines4) : Lines4 :=
  ⟨L.l0.map (moveLine v.1 v.2),
   L.l1.map (moveLine v.2 v.1),
   L.l2.map (moveLine v.1 v.2),
   L.l3.map (moveLine v.2 v.1)⟩

end Shape

/-- Boolean form of the `para0 ≤ para1` invariant for every stored line. -/
def linesOrdered (L : Lines4) : Bool :=
  L.l0.all (fun l => decide (l.pl0 ≤ l.pl1)) &&
  L.l1.all (fun l => decide (l.pl0 ≤ l.pl1)) &&
  L.l2.all (fun l => decide (l.pl0 ≤ l.pl1)) &&
  L.l3.all (fun l => decide (l.pl0 ≤ l.pl1))

lemma linesOrdered_push (L : Lines4) (d : Nat) (l : CLine)
    (hL : linesOrdered L = true) (hl : l.pl0 ≤ l.pl1) :
    linesOrdered (L.push d l) = true := by
  simp only [linesOrdered, Bool.and_eq_true, List.all_eq_true,
    decide_eq_true_eq] at hL ⊢
  obtain ⟨⟨⟨h0, h1⟩, h2⟩, h3⟩ := hL
  unfold Lines4.push
  have hd : d % 4 = 0 ∨ d % 4 = 1 ∨ d % 4 = 2 ∨ d % 4 = 3 := by omega
  rcases hd with h | h | h | h <;>
    simp only [h, List.mem_append, List.mem_singleton] <;>
    refine ⟨⟨⟨?_, ?_⟩, ?_⟩, ?_⟩ <;>
    intro x hx <;>
    first
      | exact h0 x hx
      | exact h1 x hx
      | exact h2 x hx
      | exact h3 x hx
      | (rcases hx with hx | rfl
         · first | exact h0 x hx | exact h1 x hx | exact h2 x hx | exact h3 x hx
         · exact hl)

lemma linesOrdered_move (v : ℚ × ℚ) (L : Lines4)
    (hL : linesOrdered L = true) : linesOrdered (Shape.move v L) = true := by
  simp only [linesOrdered, Bool.and_eq_true, List.all_eq_true] at hL ⊢
  obtain ⟨⟨⟨h0, h1⟩, h2⟩, h3⟩ := hL
  refine ⟨⟨⟨?_, ?_⟩, ?_⟩, ?_⟩ <;>
    · intro x hx
      simp only [Shape.move, List.mem_map] at hx
      obtain ⟨a, ha, rfl⟩ := hx
      simp only [moveLine, decide_eq_true_eq]
      first
        | exact add_le_add_right (by simpa using h0 a ha) _
        | exact add_le_add_right (by simpa using h1 a ha) _
        | exact add_le_add_right (by simpa using h2 a ha) _
        | exact add_le_add_right (by simpa using h3 a ha) _

/-- C8: every line stored by `Shape.__init__` is endpoint-normalized
(`para0 ≤ para1`), and `Shape._move` preserves the normalization (both
endpoints are shifted by the same parallel amount). -/
theorem shape_lines_normalized :
    (∀ inp : List (Nat × ℚ × ℚ × ℚ), linesOrdered (Shape.init inp) = true) ∧
    (∀ (L : Lines4) (v : ℚ × ℚ),
      linesOrdered L = true → linesOrdered (Shape.move v L) = true) := by
  constructor
  · intro inp
    suffices h : ∀ L : Lines4, linesOrdered L = true →
        linesOrdered (inp.foldl
          (fun L q =>
            let d := q.1
            let pr := q.2.1
            let pl0 := q.2.2.1
            let pl1 := q.2.2.2
            if pl0 > pl1 then L.push d ⟨pr, pl1, pl0⟩ else L.push d ⟨pr, pl0, pl1⟩)
          L) = true by
      exact h Lines4.empty (by decide)
    induction inp with
    | nil => intro L hL; simpa using hL
    | cons q rest ih =>
      intro L hL
      simp only [List.foldl_cons]
      apply ih
      by_cases hq : q.2.2.1 > q.2.2.2
      · simpa [hq] using linesOrdered_push L q.1 _ hL (le_of_lt hq)
      · simpa [hq] using linesOrdered_push L q.1 _ hL (le_of_not_lt hq)
  · intro L v hL
    exact linesOrdered_move v L hL

/-- Witness for C8 at a concrete input: a shape built from a reversed pair
of endpoints is normalized, and stays normalized after a move. -/
theorem shape_lines_normalized_witness :
    linesOrdered (Shape.move (3, -2) (Shape.init [(0, 1, 5, 3), (2, 4, 0, 7)])) = true :=
  shape_lines_normalized.2 (Shape.init [(0, 1, 5, 3), (2, 4, 0, 7)]) (3, -2)
    (shape_lines_normalized.1 [(0, 1, 5, 3), (2, 4, 0, 7)])

/-- C9: `_move` is additive — moving by `v1` and then by `v2` yields exactly
the same stored lines as the single move by `v1 + v2`. -/
theorem shape_move_additive (L : Lines4) (v1 v2 : ℚ × ℚ) :
    Shape.move v1 (Shape.move v2 L) = Shape.move (v1.1 + v2.1, v1.2 + v2.2) L := by
  cases L with
  | mk l0 l1 l2 l3 =>
    simp only [Shape.move, Lines4.mk.injEq, List.map_map]
    refine ⟨?_, ?_, ?_, ?_⟩ <;>
      · apply List.map_congr_left
        intro a _
        simp only [Function.comp_apply, moveLine, CLine.mk.injEq]
        refine ⟨by ring, by ring, by ring⟩

/-! ## Collision response equations

The normal-axis (collision-direction) velocity updates of
`CollisionHandler.update`.  `collideStaticNormal` is the static-side case
(`v1[axis] = -e * u1pl`, line 641); `collideMovingNormal` is the
moving–moving case (lines 661-666). -/

/-- Static-side normal response: the moving body keeps `-e` times its
normal velocity, where `e` is the product of the two elasticities. -/
def collideStaticNormal (e u1pl : ℚ) : ℚ := -e * u1pl

/-- Moving–moving normal response: 1D momentum-conserving collision scaled
by the elasticity product, exactly as computed in the source. -/
def collideMovingNormal (m1 m2 e u1pl u2pl : ℚ) : ℚ × ℚ :=
  let p0 := m1 * u1pl + m2 * u2pl
  let m := m1 + m2
  ((p0 + (u2pl - u1pl) * e * m2) / m, (p0 + (u1pl - u2pl) * e * m1) / m)

/-- Modelled from the spec: the reference equation `v1' = (p0 + (u2−u1)·e·m2)/M`
with `p0 = m1·u1 + m2·u2` and `M = m1 + m2` (spec §4.5 step 5). -/
def specNormalV1 (m1 m2 e u1 u2 : ℚ) : ℚ :=
  (m1 * u1 + m2 * u2 + (u2 - u1) * e * m2) / (m1 + m2)

/-- Modelled from the spec: the reference equation `v2' = (p0 + (u1−u2)·e·m1)/M`
(spec §4.5 step 5). -/
def specNormalV2 (m1 m2 e u1 u2 : ℚ) : ℚ :=
  (m1 * u1 + m2 * u2 + (u1 - u2) * e * m1) / (m1 + m2)

/-- C2: the code's normal-axis response agrees with the spec's reference
equations; for two moving bodies it conserves total normal momentum, and
for equal masses with elasticity product 1 it exactly swaps the two normal
velocities. -/
theorem collision_normal_response (m1 m2 e u1 u2 : ℚ)
    (hm1 : 0 < m1) (hm2 : 0 < m2) :
    collideStaticNormal e u1 = -(e * u1) ∧
    collideMovingNormal m1 m2 e u1 u2
      = (specNormalV1 m1 m2 e u1 u2, specNormalV2 m1 m2 e u1 u2) ∧
    m1 * (collideMovingNormal m1 m2 e u1 u2).1
      + m2 * (collideMovingNormal m1 m2 e u1 u2).2 = m1 * u1 + m2 * u2 ∧
    (m1 = m2 → e = 1 → collideMovingNormal m1 m2 e u1 u2 = (u2, u1)) := by
  have hm : m1 + m2 ≠ 0 := by positivity
  refine ⟨by simp [collideStaticNormal], rfl, ?_, ?_⟩
  · simp only [collideMovingNormal]
    field_simp
    ring
  · rintro rfl rfl
    simp only [collideMovingNormal, Prod.mk.injEq]
    constructor <;> · field_simp; ring

/-- Witness for C2 at `m1 = m2 = 1`, `e = 1`, `u1 = 2`, `u2 = 5`: the
normal velocities are exactly exchanged. -/
theorem collision_normal_response_witness :
    collideMovingNormal 1 1 1 2 5 = (5, 2) :=
  (collision_normal_response 1 1 1 2 5 (by norm_num) (by norm_num)).2.2.2 rfl rfl

/-! ## Time-of-impact candidate computation

`pairCandidate` is the body of the inner pair loop of the candidate search
in `update()` (lines 564-605), in oriented coordinates: all perpendicular
positions and velocities have already been multiplied by `dirn`
(`+1` for directions 2,3 and `-1` for directions 0,1), exactly as the
source does before the guards run.  It returns `some t` when the pair
yields a collision candidate at crossing time `t`, `none` when any guard
skips the pair. -/

def pairCandidate (l10pr l10pl0 l10pl1 v1pr v1pl l20pr l20pl0 l20pl1 v2pr v2pl : ℚ) :
    Option ℚ :=
  -- don't collide if not moving towards each other
  if v1pr ≤ v2pr then none
  else
    let l11pr := l10pr + v1pr
    let l21pr := l20pr + v2pr
    -- don't collide if don't move past each other
    if l10pr > l20pr ∨ l11pr ≤ l21pr then none
    else
      -- ratio of distance moved before collision; the d = 0 guard mirrors
      -- the source's defence against float cancellation
      let d := l11pr - l10pr - l21pr + l20pr
      if d = 0 then none
      else
        let t := (l20pr - l10pr) / d
        let l1tpl0 := l10pl0 + t * v1pl
        let l1tpl1 := l10pl1 + t * v1pl
        let l2tpl0 := l20pl0 + t * v2pl
        let l2tpl1 := l20pl1 + t * v2pl
        -- don't collide if endpoints don't overlap at t
        if l1tpl1 ≤ l2tpl0 ∨ l2tpl1 ≤ l1tpl0 then none
        else some t

/-- C4: in the candidate search, a pair that is not closing
(`v1pr ≤ v2pr`, i.e. closing speed ≤ 0) never produces a candidate; and a
pair at exactly zero perpendicular separation with positive closing speed
and overlapping parallel extents produces a candidate with `t = 0`. -/
theorem candidate_closing_and_zero_sep
    (l10pr l10pl0 l10pl1 v1pr v1pl l20pr l20pl0 l20pl1 v2pr v2pl : ℚ) :
    (v1pr ≤ v2pr →
      pairCandidate l10pr l10pl0 l10pl1 v1pr v1pl l20pr l20pl0 l20pl1 v2pr v2pl
        = none) ∧
    (l10pr = l20pr → v2pr < v1pr → l10pl0 < l20pl1 → l20pl0 < l10pl1 →
      pairCandidate l10pr l10pl0 l10pl1 v1pr v1pl l20pr l20pl0 l20pl1 v2pr v2pl
        = some 0) := by
  constructor
  · intro h
    simp [pairCandidate, h]
  · intro hsep hv hov1 hov2
    have hv' : ¬ v1pr ≤ v2pr := not_le.mpr hv
    have hpast : ¬ (l10pr > l20pr ∨ l10pr + v1pr ≤ l20pr + v2pr) := by
      push_neg
      exact ⟨le_of_eq hsep, by rw [hsep]; exact add_lt_add_left hv l20pr⟩
    have hd : l10pr + v1pr - l10pr - (l20pr + v2pr) + l20pr = v1pr - v2pr := by
      ring
    have hdne : ¬ (l10pr + v1pr - l10pr - (l20pr + v2pr) + l20pr = 0) := by
      rw [hd]
      exact sub_ne_zero_of_ne (ne_of_gt hv)
    have ht : (l20pr - l10pr) / (l10pr + v1pr - l10pr - (l20pr + v2pr) + l20pr)
        = 0 := by
      rw [hsep]
      simp
    simp only [pairCandidate, hv', if_false, hpast, hdne, ht]
    have hov : ¬ (l10pl1 + 0 * v1pl ≤ l20pl0 + 0 * v2pl ∨
        l20pl1 + 0 * v2pl ≤ l10pl0 + 0 * v1pl) := by
      push_neg
      constructor <;> · simp only [zero_mul, add_zero]; linarith
    simp [hov]
    exact ⟨hov2, hov1⟩

/-- Witness for C4: a separating pair yields no candidate, and a touching
closing pair yields a candidate at `t = 0`. -/
theorem candidate_closing_and_zero_sep_witness :
    pairCandidate 0 0 2 0 0 0 1 3 0 0 = none ∧
    pairCandidate 0 0 2 1 0 0 1 3 0 0 = some 0 :=
  ⟨(candidate_closing_and_zero_sep 0 0 2 0 0 0 1 3 0 0).1 le_rfl,
   (candidate_closing_and_zero_sep 0 0 2 1 0 0 1 3 0 0).2 rfl
     (by norm_num) (by norm_num) (by norm_num)⟩

/-- Any produced candidate time satisfies `0 ≤ t < 1` (the crossing happens
inside the sub-step; used both for the `assert t != 1` in the source and
for the distance bookkeeping). -/
lemma pairCandidate_bounds
    (l10pr l10pl0 l10pl1 v1pr v1pl l20pr l20pl0 l20pl1 v2pr v2pl t : ℚ)
    (h : pairCandidate l10pr l10pl0 l10pl1 v1pr v1pl l20pr l20pl0 l20pl1 v2pr v2pl
      = some t) : 0 ≤ t ∧ t < 1 := by
  simp only [pairCandidate] at h
  split_ifs at h with h1 h2 h3 h4
  all_goals simp at h
  push_neg at h2
  have hdpos : 0 < v1pr - (l20pr + v2pr) + l20pr := by
    have h1' := not_le.mp h1
    linarith
  have hnum : 0 ≤ l20pr - l10pr := sub_nonneg.mpr h2.1
  have hlt : l20pr - l10pr < v1pr - (l20pr + v2pr) + l20pr := by
    have h22 := h2.2
    linarith
  rw [← h]
  exact ⟨div_nonneg hnum (le_of_lt hdpos), (div_lt_one hdpos).mpr hlt⟩

/-! ## Handler state -/

/-- Exceptions the model can raise.  `massError` models the Python
`TypeError` raised by arithmetic on a `None` mass; `keyError` models the
`KeyError` raised by looking up a static shape in `resolved`;
`assertFail` models the `assert t != 1`; `attrError` models the
`AttributeError`/`IndexError` of reading `.rect` off a shape without all
four sides; `fuel` reports fuel exhaustion of the model's bounded loops. -/
inductive Err where
  | fuel
  | keyError
  | massError
  | assertFail
  | attrError
  deriving DecidableEq, Repr

instance : Inhabited CLine := ⟨⟨0, 0, 0⟩⟩

/-- A body: `StaticObject` or `Object`.  `isObject` records the Python
class (the `isinstance(o, Object)` test of `_cache_shapes`); `mass = none`
models `mass = None` ("infinite"); `vel`, `elast`, `frict` as in the
source.  `vel` and `mass` are only meaningful when `isObject = true`. -/
structure Obj where
  isObject : Bool
  mass : Option ℚ
  vel : ℚ × ℚ
  elast : ℚ
  frict : ℚ
  lines : Lines4
  deriving DecidableEq, Repr

instance : Inhabited Obj := ⟨⟨false, none, (0, 0), 0, 0, Lines4.empty⟩⟩

/-- A reference to a stored line: (direction, body index, line index).
The source keeps Python references to the mutable line lists; since every
mutation moves whole shapes, dereferencing against the current state is
the faithful translation. -/
structure LRef where
  d : Nat
  o : Nat
  i : Nat
  deriving DecidableEq, Repr

/-- A key of the touching relation: `(i, o1, i1, o2, i2)`. -/
structure TKey where
  d : Nat
  o1 : Nat
  i1 : Nat
  o2 : Nat
  i2 : Nat
  deriving DecidableEq, Repr

/-- An entry of the touching relation: the key plus the references to the
two stored lines (`touching[k] = (l1, l2)`). -/
structure TEntry where
  key : TKey
  ref1 : LRef
  ref2 : LRef
  deriving DecidableEq, Repr

/-- The handler state.  `objs`/`err`/`touching` persist across calls;
`remaining` (= `remaining_vel`, kept as a total function but only
meaningful at moving-body indices) and `totalTr` (= `total_tr`) are the
loop-local state of `update()`.  `hits` and `moveLog` are ghost fields for
specification only: `hits` lists the bodies of each handled collision and
`moveLog i` the successive translations the movement phase applied to body
`i`; neither influences any computed value. -/
structure World where
  objs : List Obj
  err : ℚ
  touching : List TEntry
  remaining : Nat → ℚ × ℚ
  totalTr : ℚ
  hits : List Nat
  moveLog : Nat → List (ℚ × ℚ)

def World.objAt (w : World) (n : Nat) : Obj := w.objs.getD n default

def World.movingAt (w : World) (n : Nat) : Bool := (w.objAt n).isObject

def World.velAt (w : World) (n : Nat) : ℚ × ℚ := (w.objAt n).vel

/-- Dereference a line reference against the current state. -/
def World.lineAt (w : World) (r : LRef) : CLine :=
  ((w.objAt r.o).lines.get r.d).getD r.i default

/-- Python list indexing `v[a]` for a velocity pair, `a ∈ {0, 1}`. -/
def getAxis (v : ℚ × ℚ) (a : Nat) : ℚ := if a % 2 = 0 then v.1 else v.2

/-- Python list assignment `v[a] = x` for a velocity pair. -/
def setAxis (v : ℚ × ℚ) (a : Nat) (x : ℚ) : ℚ × ℚ :=
  if a % 2 = 0 then (x, v.2) else (v.1, x)

def scaleV (c : ℚ) (v : ℚ × ℚ) : ℚ × ℚ := (c * v.1, c * v.2)

/-! ## Indexed-list helpers -/

/-- Pair each element of a list with its index, starting at `n`
(Python `enumerate`). -/
def withIdx : List α → Nat → List (Nat × α)
  | [], _ => []
  | a :: as, n => (n, a) :: withIdx as (n + 1)

/-- Map over a list with the element index, starting at `n`. -/
def mapWithIdx (f : Nat → α → α) : List α → Nat → List α
  | [], _ => []
  | a :: as, n => f n a :: mapWithIdx f as (n + 1)

/-- Concatenation of a list of lists produced elementwise
(Python nested-loop accumulation). -/
def lbind (l : List α) (f : α → List β) : List β :=
  match l with
  | [] => []
  | a :: as => f a ++ lbind as f

lemma mem_lbind {l : List α} {f : α → List β} {b : β} :
    b ∈ lbind l f ↔ ∃ a ∈ l, b ∈ f a := by
  induction l with
  | nil => simp [lbind]
  | cons a as ih => simp [lbind, ih, List.mem_append, or_and_right, exists_or]

lemma get?_mapWithIdx (f : Nat → α → α) (l : List α) (n k : Nat) :
    (mapWithIdx f l n).get? k = (l.get? k).map (f (n + k)) := by
  induction l generalizing n k with
  | nil => simp [mapWithIdx]
  | cons a as ih =>
    cases k with
    | zero => simp [mapWithIdx]
    | succ k =>
      simp only [mapWithIdx, List.get?_cons_succ, ih]
      have h : n + 1 + k = n + (k + 1) := by omega
      rw [h]

lemma length_mapWithIdx (f : Nat → α → α) (l : List α) (n : Nat) :
    (mapWithIdx f l n).length = l.length := by
  induction l generalizing n with
  | nil => rfl
  | cons a as ih => simp [mapWithIdx, ih]

/-! ## The candidate search of `update()` (lines 544-605) -/

/-- Per-direction list of (body index, line index) for moving bodies, in
the order `_cache_shapes` builds `moving_lines`. -/
def movingLines (w : World) (d : Nat) : List (Nat × Nat) :=
  lbind (withIdx w.objs 0) fun p =>
    if p.2.isObject then
      (List.range (p.2.lines.get d).length).map fun li => (p.1, li)
    else []

/-- Per-direction list of (is-static, body index, line index) for all
bodies, in the order `_cache_shapes` builds `lines`. -/
def allLines (w : World) (d : Nat) : List (Bool × Nat × Nat) :=
  lbind (withIdx w.objs 0) fun p =>
    (List.range (p.2.lines.get d).length).map fun li => (!p.2.isObject, p.1, li)

/-- The `checked` set at the moment the moving line at position `pos` of
direction `i` runs its inner loop: all moving lines of directions `< i`,
plus the moving lines of direction `i` up to and including position `pos`. -/
def checkedSet (w : World) (i pos : Nat) : List (Nat × Nat × Nat) :=
  lbind (List.range i) (fun d => (movingLines w d).map fun q => (d, q.1, q.2)) ++
    ((movingLines w i).take (pos + 1)).map fun q => (i, q.1, q.2)

/-- A collision candidate, mirroring the source tuple
`(t, i, j, static, o1, i2, l1, v1, o2, i2, l2, v2)` (line 604: the source
really stores `i2` in the 6th slot where `i1` would be expected; `i1`
below holds that value, while `ref1` records which line `l1` actually is). -/
structure Cand where
  t : ℚ
  i : Nat
  j : Nat
  static : Bool
  o1 : Nat
  i1 : Nat
  ref1 : LRef
  v1 : ℚ × ℚ
  o2 : Nat
  i2 : Nat
  ref2 : LRef
  v2 : ℚ × ℚ
  deriving DecidableEq, Repr

/-- The body of the inner pair loop of the candidate search: direction
`i`, moving line `(o1, i1)` at position `pos` of its direction list,
against line entry `sq` of the opposite direction. -/
def candAt (w : World) (i pos : Nat) (pq : Nat × Nat) (sq : Bool × Nat × Nat) :
    Option Cand :=
  let axis := i % 2
  let dirn : ℚ := if i ≥ 2 then 1 else -1
  let j := (i + 2) % 4
  let o1 := pq.1
  let i1 := pq.2
  let v1 := w.remaining o1
  let v1pr := dirn * getAxis v1 axis
  let v1pl := getAxis v1 (1 - axis)
  let l1 := w.lineAt ⟨i, o1, i1⟩
  let static := sq.1
  let o2 := sq.2.1
  let i2 := sq.2.2
  if (j, o2, i2) ∈ checkedSet w i pos then none
  else if o2 = o1 then none
  else
    let v2 := if static then (0, 0) else w.remaining o2
    let v2pr := dirn * getAxis v2 axis
    let v2pl := getAxis v2 (1 - axis)
    let l2 := w.lineAt ⟨j, o2, i2⟩
    match pairCandidate (dirn * l1.pr) l1.pl0 l1.pl1 v1pr v1pl
        (dirn * l2.pr) l2.pl0 l2.pl1 v2pr v2pl with
    | none => none
    | some t =>
      some ⟨t, i, j, static, o1, i2, ⟨i, o1, i1⟩, v1, o2, i2, ⟨j, o2, i2⟩, v2⟩

/-- All collision candidates of one iteration of the `update()` loop. -/
def findCollisions (w : World) : List Cand :=
  lbind (List.range 4) fun i =>
    lbind (withIdx (movingLines w i) 0) fun pq =>
      (allLines w ((i + 2) % 4)).filterMap (candAt w i pq.1 pq.2)

/-- Strict comparison on candidate tuples, following Python's element-wise
tuple order `(t, i, j, static, o1, i2, ...)`.  CPython compares the two
`o1` objects by address once the numeric prefix ties; addresses are not
observable, so the model orders bodies by their index (one legitimate
address assignment).  Components beyond `i2` are tie-broken by keeping the
earlier candidate, matching `min`'s first-minimum rule. -/
def candLt (a b : Cand) : Bool :=
  if a.t < b.t then true else if b.t < a.t then false
  else if a.i < b.i then true else if b.i < a.i then false
  else if a.j < b.j then true else if b.j < a.j then false
  else if a.static < b.static then true else if b.static < a.static then false
  else if a.o1 < b.o1 then true else if b.o1 < a.o1 then false
  else if a.i1 < b.i1 then true else if b.i1 < a.i1 then false
  else if a.o2 < b.o2 then true else if b.o2 < a.o2 then false
  else decide (a.i2 < b.i2)

/-- Python `min(collisions)`: the first element attaining the minimum. -/
def pickMin (l : List Cand) : Option Cand :=
  match l with
  | [] => none
  | c :: cs => some (cs.foldl (fun a b => if candLt b a then b else a) c)

lemma foldl_min_mem (cs : List Cand) (c : Cand) :
    cs.foldl (fun a b => if candLt b a then b else a) c ∈ c :: cs := by
  induction cs generalizing c with
  | nil => simp
  | cons b bs ih =>
    simp only [List.foldl_cons]
    by_cases h : candLt b c
    · simp only [h, if_true]
      have := ih b
      simp only [List.mem_cons] at this ⊢
      tauto
    · simp only [h, if_false]
      have := ih c
      simp only [List.mem_cons] at this ⊢
      tauto

lemma pickMin_mem {l : List Cand} {c : Cand} (h : pickMin l = some c) : c ∈ l := by
  match l with
  | [] => simp [pickMin] at h
  | a :: as =>
    simp only [pickMin, Option.some.injEq] at h
    rw [← h]
    exact foldl_min_mem as a

/-! ## One iteration of the `update()` loop -/

/-- Record the selected collision in the touching relation
(lines 611-616): prefer the symmetric key `k2` when it is already present,
then overwrite-or-insert the pair of line references. -/
def touchSet (T : List TEntry) (k : TKey) (r1 r2 : LRef) : List TEntry :=
  if T.any (fun en => decide (en.key = k)) then
    T.map (fun en => if en.key = k then ⟨k, r1, r2⟩ else en)
  else T ++ [⟨k, r1, r2⟩]

def touchAdd (w : World) (c : Cand) : World :=
  let k : TKey := ⟨c.i, c.o1, c.i1, c.o2, c.i2⟩
  let k2 : TKey := ⟨c.j, c.o2, c.i2, c.o1, c.i1⟩
  let key := if w.touching.any (fun en => decide (en.key = k2)) then k2 else k
  { w with touching := touchSet w.touching key c.ref1 c.ref2 }

/-- Move every moving body with a nonzero remaining velocity by `t` times
that velocity, and rescale the remaining velocity by `tr` when `tr ≠ 0`
(lines 623-631).  The ghost `moveLog` records each applied translation. -/
def moveAll (w : World) (t tr : ℚ) : World :=
  { w with
    objs := mapWithIdx
      (fun idx o =>
        if o.isObject = true ∧ ¬ w.remaining idx = (0, 0) then
          { o with lines := Shape.move (scaleV t (w.remaining idx)) o.lines }
        else o)
      w.objs 0,
    remaining := fun idx =>
      if w.movingAt idx = true ∧ ¬ w.remaining idx = (0, 0) ∧ ¬ tr = 0 then
        scaleV tr (w.remaining idx)
      else w.remaining idx,
    moveLog := fun idx =>
      if w.movingAt idx = true ∧ ¬ w.remaining idx = (0, 0) then
        w.moveLog idx ++ [scaleV t (w.remaining idx)]
      else w.moveLog idx }

def updateObjAt (w : World) (n : Nat) (f : Obj → Obj) : World :=
  { w with objs := mapWithIdx (fun idx o => if idx = n then f o else o) w.objs 0 }

/-- Assign a body's velocity (`o.vel` mutation). -/
def setVel (w : World) (n : Nat) (v : ℚ × ℚ) : World :=
  updateObjAt w n (fun o => { o with vel := v })

/-- Translate one body's shape (`o.shape._move(v)`). -/
def moveObjLines (w : World) (n : Nat) (v : ℚ × ℚ) : World :=
  updateObjAt w n (fun o => { o with lines := Shape.move v o.lines })

/-- Assign a body's remaining velocity (`remaining_vel` mutation). -/
def setRem (w : World) (n : Nat) (v : ℚ × ℚ) : World :=
  { w with remaining := Function.update w.remaining n v }

/-- The tangential (friction) update of one body in the moving–moving
branch (lines 675-682): damp the tangential speed relative to the
centre-of-mass frame velocity `v0` by `F / m`, clamped at zero. -/
def frictionApply (w : World) (oi axis : Nat) (mb upr F v0 : ℚ) : World :=
  let upr1 := upr - v0
  let d : ℚ := if upr1 > 0 then 1 else -1
  let vpr := d * max (d * upr1 - F / mb) 0 + v0
  let w1 := setVel w oi (setAxis (w.objAt oi).vel (1 - axis) vpr)
  setRem w1 oi (setAxis (w1.remaining oi) (1 - axis) (vpr * w1.totalTr))

/-- The static-side branch of the response (lines 638-650): `v1` is the
colliding body's velocity as read at the top of the branch. -/
def respStatic (w : World) (c : Cand) (e f : ℚ) (v1 : ℚ × ℚ) : World :=
  let axis := c.i % 2
  let u1pl := getAxis v1 axis
  let w1 := setVel w c.o1 (setAxis v1 axis (collideStaticNormal e u1pl))
  let w2 := setRem w1 c.o1
    (setAxis (w1.remaining c.o1) axis (getAxis (w1.remaining c.o1) axis * (-e)))
  if ¬ f = 0 then
    let u1pr := getAxis v1 (1 - axis)
    let d : ℚ := if u1pr > 0 then 1 else -1
    let v1pr := d * max (d * u1pr - f * |u1pl + e * u1pl|) 0
    let w3 := setVel w2 c.o1 (setAxis (w2.objAt c.o1).vel (1 - axis) v1pr)
    setRem w3 c.o1 (setAxis (w3.remaining c.o1) (1 - axis) (v1pr * w3.totalTr))
  else w2

/-- The moving–moving branch of the response given both masses
(lines 659-682); `w` is the state after the positional snap. -/
def respMoving (w : World) (c : Cand) (e f : ℚ) (v1 v2 : ℚ × ℚ) (m1 m2 : ℚ) :
    World :=
  let axis := c.i % 2
  let u1pl := getAxis v1 axis
  let u2pl := getAxis v2 axis
  let vv := collideMovingNormal m1 m2 e u1pl u2pl
  let w2 := setVel w c.o1 (setAxis v1 axis vv.1)
  let w3 := setVel w2 c.o2 (setAxis v2 axis vv.2)
  let w4 := setRem w3 c.o1 (setAxis (w3.remaining c.o1) axis (vv.1 * w3.totalTr))
  let w5 := setRem w4 c.o2 (setAxis (w4.remaining c.o2) axis (vv.2 * w4.totalTr))
  if ¬ f = 0 then
    let m := m1 + m2
    let u1pr := getAxis v1 (1 - axis)
    let u2pr := getAxis v2 (1 - axis)
    let F := f * (m1 * |vv.1 - u1pl| + m2 * |vv.2 - u2pl|)
    let v0 := (m1 * u1pr + m2 * u2pr) / m
    let w6 := frictionApply w5 c.o1 axis m1 u1pr F v0
    frictionApply w6 c.o2 axis m2 u2pr F v0
  else w5

/-- The collision response (lines 632-682), applied after the movement
phase.  `c.static` selects the static-side branch; in the moving–moving
branch a `None` mass raises (Python `TypeError` from `None` arithmetic),
modelled as `Err.massError`.  The ghost `hits` field records the two
bodies involved. -/
def respond (w0 : World) (c : Cand) : Except Err World :=
  let axis := c.i % 2
  let o1 := w0.objAt c.o1
  let o2 := w0.objAt c.o2
  let e := o1.elast * o2.elast
  let f := o1.frict * o2.frict
  let w := { w0 with hits := w0.hits ++ [c.o1, c.o2] }
  if c.static then Except.ok (respStatic w c e f o1.vel)
  else
    -- adjust for float drift: snap the two lines to the same perpendicular
    -- position (lines 652-658)
    let l1 := w.lineAt c.ref1
    let l2 := w.lineAt c.ref2
    let w1 := if ¬ l1.pr = l2.pr then
        moveObjLines w c.o1 (setAxis (0, 0) axis (l2.pr - l1.pr))
      else w
    match o1.mass, o2.mass with
    | some m1, some m2 => Except.ok (respMoving w1 c e f o1.vel o2.vel m1 m2)
    | _, _ => Except.error Err.massError

/-- One iteration of the `while True` loop of `update()`.  Returns the new
state and `true` to continue, `false` when the loop breaks (no candidate
collision: everything moved by its full remaining velocity). -/
def updateStep (w : World) : Except Err (World × Bool) :=
  match pickMin (findCollisions w) with
  | none =>
    let w1 := { w with totalTr := w.totalTr * 0 }
    Except.ok (moveAll w1 1 0, false)
  | some c =>
    if c.t = 1 then Except.error Err.assertFail
    else
      let w1 := touchAdd w c
      let tr := 1 - c.t
      let w2 := { w1 with totalTr := w1.totalTr * tr }
      let w3 := if ¬ c.t = 0 then moveAll w2 c.t tr else w2
      (respond w3 c).map (fun w4 => (w4, true))

def updateLoop : Nat → World → Except Err World
  | 0, _ => Except.error Err.fuel
  | Nat.succ n, w =>
    match updateStep w with
    | Except.error e => Except.error e
    | Except.ok (w1, false) => Except.ok w1
    | Except.ok (w1, true) => updateLoop n w1

/-- The end-of-update pruning condition (lines 687-696): an entry is kept
iff its two lines are within `err` perpendicular distance and their
parallel extents still overlap. -/
def touchKeep (w : World) (en : TEntry) : Bool :=
  let l1 := w.lineAt en.ref1
  let l2 := w.lineAt en.ref2
  decide (|l1.pr - l2.pr| ≤ w.err) && decide (l1.pl0 < l2.pl1) &&
    decide (l2.pl0 < l1.pl1)

def pruneWorld (w : World) : World :=
  { w with touching := w.touching.filter (touchKeep w) }

/-- Entry of `update()`: initialize `remaining_vel` from the current body
velocities and `total_tr = 1`, and reset the ghost fields.  The source
only creates `remaining_vel` entries for moving shapes; entries at
non-moving indices are never read. -/
def initUpdate (w : World) : World :=
  { w with
    remaining := fun i => (w.objAt i).vel,
    totalTr := 1,
    hits := [],
    moveLog := fun _ => [] }

/-- Model of `CollisionHandler.update()`, with fuel bounding the collision loop. -/
def updateModel (fuel : Nat) (w : World) : Except Err World :=
  (updateLoop fuel (initUpdate w)).map pruneWorld

/-! ## `_update_contact` (lines 479-505) -/

/-- Rebuild the touching relation from scratch: every moving line paired
against every unchecked opposite-direction line of a different body that
is within `err` with overlapping extents.  The final condition repeats the
source literally, whose second conjunct `l2pl1 > l1pl0` restates the
first. -/
def contactAt (w : World) (i pos : Nat) (pq : Nat × Nat) (sq : Bool × Nat × Nat) :
    Option TEntry :=
  let j := (i + 2) % 4
  let o1 := pq.1
  let i1 := pq.2
  let l1 := w.lineAt ⟨i, o1, i1⟩
  let o2 := sq.2.1
  let i2 := sq.2.2
  if (j, o2, i2) ∈ checkedSet w i pos then none
  else if o2 = o1 then none
  else
    let l2 := w.lineAt ⟨j, o2, i2⟩
    if |l1.pr - l2.pr| ≤ w.err ∧ l1.pl0 < l2.pl1 ∧ l2.pl1 > l1.pl0 then
      some ⟨⟨i, o1, i1, o2, i2⟩, ⟨i, o1, i1⟩, ⟨j, o2, i2⟩⟩
    else none

def buildContact (w : World) : List TEntry :=
  lbind (List.range 4) fun i =>
    lbind (withIdx (movingLines w i) 0) fun pq =>
      (allLines w ((i + 2) % 4)).filterMap (contactAt w i pq.1 pq.2)

def updateContact (w : World) : World := { w with touching := buildContact w }

/-! ## `_fix_colliding` (lines 421-477) and `reinit` (lines 507-529) -/

/-- The `.rect` accessor used by `_fix_colliding` ("treat lines as rects"):
for a four-sided shape it is `(left, top, right, bottom)`, the perpendicular
positions of the first line of each bucket (`Rect.__getattr__`).  A shape
missing a side has no such attribute (`none`, raising in the model as the
Python lookup would). -/
def rectOf (o : Obj) : Option (ℚ × ℚ × ℚ × ℚ) :=
  match o.lines.l0, o.lines.l1, o.lines.l2, o.lines.l3 with
  | a :: _, b :: _, c :: _, d :: _ => some (a.pr, b.pr, c.pr, d.pr)
  | _, _, _, _ => none

/-- An entry of the `overlaps` list: `(d, v, s1, s2, axis)`. -/
structure Ov where
  d : ℚ
  v : ℚ × ℚ
  s1 : Nat
  s2 : Nat
  axis : Nat
  deriving DecidableEq, Repr

/-- A selected resolution move: `(v, s1, s2, axis)` as bound by
`v, s1, s2, axis = overlaps.pop(0)[1:]`. -/
structure Mv where
  v : ℚ × ℚ
  s1 : Nat
  s2 : Nat
  axis : Nat
  deriving DecidableEq, Repr

/-- The `resolved` lookup (`resolved[s]`): defined only at moving-shape keys;
`none` is a Python `KeyError`. -/
def resGet : List (Nat × List (Nat × Nat)) → Nat → Option (List (Nat × Nat))
  | [], _ => none
  | p :: r, o => if p.1 = o then some p.2 else resGet r o

/-- Python `resolved[s1].append((s2, axis))`. -/
def resAppend (res : List (Nat × List (Nat × Nat))) (o : Nat) (e : Nat × Nat) :
    List (Nat × List (Nat × Nat)) :=
  res.map fun p => if p.1 = o then (p.1, p.2 ++ [e]) else p

/-- The source line 438 evaluates `s2 in resolved[s1]` where `resolved[s1]`
holds `(shape, axis)` pairs: a shape never compares equal to a 2-tuple in
Python, so every membership test is `False`.  Kept as a definition so the
dead branch stays visible in the model. -/
def shapeInPairList (_s : Nat) (l : List (Nat × Nat)) : Bool :=
  l.any fun _ => false

/-- Indices of moving bodies, in list order (`_moving_shapes`). -/
def movingIdx (w : World) : List Nat :=
  (withIdx w.objs 0).filterMap fun p => if p.2.isObject then some p.1 else none

/-- Indices of static bodies, in list order (`_static_shapes`). -/
def staticIdx (w : World) : List Nat :=
  (withIdx w.objs 0).filterMap fun p => if p.2.isObject then none else some p.1

/-- The candidate displacements contributed by one (moving, other) shape
pair (lines 438-451): when the four directed gaps are all positive the
bounding boxes overlap, and each gap yields one axis-aligned push of
`s1`. -/
def pairOvs (rtn : Bool) (res : List (Nat × List (Nat × Nat))) (w : World)
    (s1 s2 : Nat) : Except Err (List Ov) :=
  let skip : Except Err Bool :=
    if rtn = false then
      match resGet res s1 with
      | none => Except.error Err.keyError
      | some r1 => Except.ok (shapeInPairList s2 r1)
    else Except.ok false
  match skip with
  | Except.error e => Except.error e
  | Except.ok true => Except.ok []
  | Except.ok false =>
    match rectOf (w.objAt s1), rectOf (w.objAt s2) with
    | some rc1, some rc2 =>
      let l1 := rc1.1
      let t1 := rc1.2.1
      let r1 := rc1.2.2.1
      let b1 := rc1.2.2.2
      let l2 := rc2.1
      let t2 := rc2.2.1
      let r2 := rc2.2.2.1
      let b2 := rc2.2.2.2
      let ds : List ℚ := [r2 - l1, b2 - t1, r1 - l2, b1 - t2]
      let d := min (min (r2 - l1) (b2 - t1)) (min (r1 - l2) (b1 - t2))
      if 0 < d then
        Except.ok ((withIdx ds 0).map fun p =>
          ⟨p.2, setAxis (0, 0) (p.1 % 2) ((if p.1 < 2 then 1 else -1) * p.2),
            s1, s2, p.1 % 2⟩)
      else Except.ok []
    | _, _ => Except.error Err.attrError

def ovsForPartners (rtn : Bool) (res : List (Nat × List (Nat × Nat))) (w : World)
    (s1 : Nat) : List Nat → Except Err (List Ov)
  | [] => Except.ok []
  | s2 :: rest =>
    match pairOvs rtn res w s1 s2 with
    | Except.error e => Except.error e
    | Except.ok xs =>
      match ovsForPartners rtn res w s1 rest with
      | Except.error e => Except.error e
      | Except.ok ys => Except.ok (xs ++ ys)

def ovsOuter (rtn : Bool) (res : List (Nat × List (Nat × Nat))) (w : World)
    (order : List Nat) : List (Nat × Nat) → Except Err (List Ov)
  | [] => Except.ok []
  | p :: rest =>
    match ovsForPartners rtn res w p.2 (order.drop (p.1 + 1)) with
    | Except.error e => Except.error e
    | Except.ok xs =>
      match ovsOuter rtn res w order rest with
      | Except.error e => Except.error e
      | Except.ok ys => Except.ok (xs ++ ys)

/-- Collect all overlap candidates: each moving shape `s1` against every
later shape of `moving ++ static` (the `checked` set of `_fix_colliding`
makes each unordered pair checked once, with the moving side first). -/
def overlapsAll (rtn : Bool) (res : List (Nat × List (Nat × Nat))) (w : World) :
    Except Err (List Ov) :=
  let mov := movingIdx w
  let order := mov ++ staticIdx w
  ovsOuter rtn res w order (withIdx mov 0)

/-- Strict key order for `overlaps.sort()`: Python compares the tuples
`(d, v, s1, s2, axis)` element-wise; `d` and then the components of the
list `v` decide every comparison that arises before object addresses
would be consulted.  Entries equal on `(d, v)` keep generation order
(stable sort), one legitimate address assignment. -/
def ovLt (a b : Ov) : Bool :=
  decide (a.d < b.d) ||
    (decide (a.d = b.d) &&
      (decide (a.v.1 < b.v.1) ||
        (decide (a.v.1 = b.v.1) && decide (a.v.2 < b.v.2))))

def insOv (a : Ov) : List Ov → List Ov
  | [] => [a]
  | b :: bs => if ovLt a b then a :: b :: bs else b :: insOv a bs

/-- Stable insertion sort implementing `overlaps.sort()`. -/
def sortOvs (l : List Ov) : List Ov :=
  l.foldl (fun acc a => insOv a acc) []

/-- The inner `while True` of `_fix_colliding` (lines 460-472): pop the
smallest not-yet-applied candidate.  When `(s2, axis)` was already
resolved for `s1`, the source consults `resolved[s2]` — a `KeyError` when
`s2` is a static shape, since `resolved` only maps moving shapes. -/
def innerPick (res : List (Nat × List (Nat × Nat))) : List Ov →
    Except Err (Option Mv)
  | [] => Except.ok none
  | ov :: rest =>
    match resGet res ov.s1 with
    | none => Except.error Err.keyError
    | some r1 =>
      if (ov.s2, ov.axis) ∈ r1 then
        match resGet res ov.s2 with
        | none => Except.error Err.keyError
        | some r2 =>
          if (ov.s1, ov.axis) ∈ r2 then innerPick res rest
          else
            Except.ok (some ⟨(if ov.axis % 2 = 0 then (-ov.v.1, ov.v.2)
              else (ov.v.1, -ov.v.2)), ov.s2, ov.s1, ov.axis⟩)
      else Except.ok (some ⟨ov.v, ov.s1, ov.s2, ov.axis⟩)

/-- The outer fixed-point loop of `_fix_colliding`, fuel-bounded.  Every
normal exit sets a definite `some true` / `some false` success value. -/
def fixGo (rtn : Bool) : Nat → World → List (Nat × List (Nat × Nat)) →
    Except Err (World × Option Bool)
  | 0, _, _ => Except.error Err.fuel
  | Nat.succ n, w, res =>
    match overlapsAll rtn res w with
    | Except.error e => Except.error e
    | Except.ok ovs =>
      if ovs.isEmpty then Except.ok (w, some true)
      else
        match innerPick res (sortOvs ovs) with
        | Except.error e => Except.error e
        | Except.ok none => Except.ok (w, some false)
        | Except.ok (some mv) =>
          fixGo rtn n (moveObjLines w mv.s1 mv.v) (resAppend res mv.s1 (mv.s2, mv.axis))

def initRes (w : World) : List (Nat × List (Nat × Nat)) :=
  (movingIdx w).map fun i => (i, [])

/-- Model of `_fix_colliding(rtn_success)`. -/
def fixCollidingModel (rtn : Bool) (fuel : Nat) (w : World) :
    Except Err (World × Option Bool) :=
  fixGo rtn fuel w (initRes w)

/-- Model of `reinit(rtn_success)`: cache shapes (implicit in the model), run
overlap correction, rebuild the contact relation and return the success
flag.  Line 527 of the source calls `self._fix_colliding()` with no
argument, so the flag received by `reinit` is dropped and the correction
always runs with its default `rtn_success = True`. -/
def reinitModel (rtn : Bool) (fuel : Nat) (w : World) :
    Except Err (World × Option Bool) :=
  match fixCollidingModel true fuel w with
  | Except.error e => Except.error e
  | Except.ok (w1, s) => Except.ok (updateContact w1, s)

/-! ## Concrete configurations used by the claims -/

/-- Constructor `Object(mass, shape, vel, elast, frict)`. -/
def mkObject (mass : Option ℚ) (vel : ℚ × ℚ) (elast frict : ℚ) (lines : Lines4) : Obj :=
  ⟨true, mass, vel, elast, frict, lines⟩

/-- Constructor `StaticObject(shape, elast, frict)` (no mass, no velocity). -/
def mkStatic (elast frict : ℚ) (lines : Lines4) : Obj :=
  ⟨false, none, (0, 0), elast, frict, lines⟩

/-- Constructor `Rect(x0, y0, x1, y1)`: the four solid sides of an axis-aligned
rectangle, as `Rect.__init__` passes them to `Shape.__init__`. -/
def rectShape (x0 y0 x1 y1 : ℚ) : Lines4 :=
  Shape.init [(0, x0, y0, y1), (1, y0, x0, x1), (2, x1, y0, y1), (3, y1, x0, x1)]

/-- A freshly constructed handler state over the given bodies. -/
def mkWorld (objs : List Obj) (err : ℚ) : World :=
  ⟨objs, err, [], fun _ => (0, 0), 1, [], fun _ => []⟩

/-- Error projection for `update()` results. -/
def errOf (r : Except Err World) : Option Err :=
  match r with
  | Except.error e => some e
  | Except.ok _ => none

/-- Error projection for `_fix_colliding` / `reinit` results. -/
def fcErr (r : Except Err (World × Option Bool)) : Option Err :=
  match r with
  | Except.error e => some e
  | Except.ok _ => none

/-- The touching relation after a successful `update()`. -/
def touchingAfter (fuel : Nat) (w : World) : Option (List TEntry) :=
  (updateModel fuel w).toOption.map World.touching

/-- A `_fix_colliding` result that is a normal return carrying the
indeterminate success value `None`. -/
def fcIndeterminate (r : Except Err (World × Option Bool)) : Bool :=
  match r with
  | Except.ok (_, none) => true
  | _ => false

/-- Squared Euclidean length of a velocity/displacement pair (rational, so
lengths are compared through their squares). -/
def normSq (v : ℚ × ℚ) : ℚ := v.1 * v.1 + v.2 * v.2

/-- Componentwise sum of a list of displacement vectors. -/
def vsum (l : List (ℚ × ℚ)) : ℚ × ℚ :=
  l.foldr (fun a b => (a.1 + b.1, a.2 + b.2)) (0, 0)

/-- Decides whether `dv` is a nonnegative scalar multiple of `v`. -/
def isNonnegMul (dv v : ℚ × ℚ) : Bool :=
  if v = (0, 0) then decide (dv = (0, 0))
  else
    let c := if v.1 = 0 then dv.2 / v.2 else dv.1 / v.1
    decide (0 ≤ c) && decide (dv = scaleV c v)

/-- The sub-step displacements `update()` applied to body `b`, provided the
run succeeded, `b` is moving, and `b` was involved in no handled
collision. -/
def untouchedDisp (fuel : Nat) (w : World) (b : Nat) : Option (List (ℚ × ℚ)) :=
  match updateModel fuel w with
  | Except.error _ => none
  | Except.ok w1 =>
    if b ∈ w1.hits ∨ ¬ w.movingAt b = true then none else some (w1.moveLog b)

/-! ## Claim C1: the touching relation after `update()` -/

/-- A moving body approaching a static one, stopping within `err` of it
without ever reaching separation zero: no collision, so no touching entry
is recorded even though the final separation is within `err`. -/
def nearMissWorld : World := mkWorld
  [mkObject (some 1) (6/5, 0) 0 0 (rectShape 0 0 1 1),
   mkStatic 0 0 (rectShape 3 0 4 1)] 1

unseal Rat.add Rat.sub Rat.mul Rat.inv in
/-- Counterexample to C1 as stated: after `update()` on `nearMissWorld`
the touching relation is empty, although the pair of facing lines
(direction 2 of body 0 against direction 0 of body 1) satisfies the
claimed membership condition — separation `4/5 ≤ err = 1` with overlapping
parallel extents — in the final state.  The relation only ever receives
pairs that actually collide. -/
theorem touching_after_update_cex :
    touchingAfter 2 nearMissWorld = some [] ∧
    (updateModel 2 nearMissWorld).toOption.map
      (fun w => touchKeep w ⟨⟨2, 0, 0, 1, 0⟩, ⟨2, 0, 0⟩, ⟨0, 1, 0⟩⟩) = some true := by
  constructor <;> decide

/-- C1 (amended): the end-of-update pruning is exactly a filter — an entry
survives iff its two stored lines currently have perpendicular separation
`≤ err` and overlapping parallel extents — and `update()` is the collision
loop followed by that pruning.  (The relation contains only tracked
entries: pairs that never collided are absent, as `touching_after_update_cex`
shows, so "contains exactly all qualifying tuples" holds only relative to
the tracked set.) -/
theorem touching_prune_filter :
    (∀ (w : World) (en : TEntry),
      en ∈ (pruneWorld w).touching ↔
        en ∈ w.touching ∧
          |(w.lineAt en.ref1).pr - (w.lineAt en.ref2).pr| ≤ w.err ∧
          (w.lineAt en.ref1).pl0 < (w.lineAt en.ref2).pl1 ∧
          (w.lineAt en.ref2).pl0 < (w.lineAt en.ref1).pl1) ∧
    (∀ (fuel : Nat) (w : World),
      updateModel fuel w = (updateLoop fuel (initUpdate w)).map pruneWorld) := by
  constructor
  · intro w en
    simp only [pruneWorld, List.mem_filter, touchKeep, Bool.and_eq_true,
      decide_eq_true_eq]
    tauto
  · intro fuel w
    rfl

/-! ## Claim C3: infinite mass (`mass = None`) -/

/-- Two `Object`s closing head-on, the target built with the infinite-mass
sentinel `mass = None`. -/
def infMassWorld : World := mkWorld
  [mkObject (some 1) (1, 0) 0 0 (rectShape 0 0 1 1),
   mkObject none (0, 0) 0 0 (rectShape (3/2) 0 (5/2) 1)] 0

unseal Rat.add Rat.sub Rat.mul Rat.inv in
/-- C3 fails on the code: an `Object` with `mass = None` is cached among
the moving bodies (`isinstance`, not mass, decides), and when its
collision is resolved the moving–moving branch evaluates
`m1 * u1pl + m2 * u2pl` with `None`, raising a `TypeError`
(`Err.massError`) instead of treating the body as a `StaticObject`. -/
theorem infinite_mass_collision_raises :
    (infMassWorld.objAt 1).mass = none ∧
    movingIdx infMassWorld = [0, 1] ∧
    errOf (updateModel 3 infMassWorld) = some Err.massError := by
  refine ⟨rfl, by decide, by decide⟩

/-! ## Claim C5: the `rtn_success` flag of `reinit()` -/

lemma fixGo_not_indeterminate (rtn : Bool) (fuel : Nat) :
    ∀ (w : World) (res : List (Nat × List (Nat × Nat))),
      fcIndeterminate (fixGo rtn fuel w res) = false := by
  induction fuel with
  | zero => intro w res; rfl
  | succ n ih =>
    intro w res
    unfold fixGo
    cases hov : overlapsAll rtn res w with
    | error e => rfl
    | ok ovs =>
      by_cases he : ovs.isEmpty
      · simp [he, fcIndeterminate]
      · simp only [he, if_false]
        cases hp : innerPick res (sortOvs ovs) with
        | error e => rfl
        | ok r =>
          cases r with
          | none => rfl
          | some mv => exact ih _ _

/-- C5 fails on the code: `reinit` drops its `rtn_success` argument —
line 527 calls `self._fix_colliding()` with the default `True` — so both
modes behave identically; moreover `_fix_colliding` never returns the
indeterminate `None` under either flag (every exit of its loop sets a
definite boolean), so the documented fast/indeterminate mode does not
exist. -/
theorem reinit_ignores_success_flag :
    (∀ (rtn : Bool) (fuel : Nat) (w : World),
      reinitModel rtn fuel w = reinitModel true fuel w) ∧
    (∀ (rtn : Bool) (fuel : Nat) (w : World),
      fcIndeterminate (fixCollidingModel rtn fuel w) = false) := by
  constructor
  · intro rtn fuel w
    rfl
  · intro rtn fuel w
    exact fixGo_not_indeterminate rtn fuel w (initRes w)

/-! ## Claim C6: `_fix_colliding` never raises -/

/-- A moving square overlapping a static wall on its right; resolving that
overlap pushes it into a second static wall on its left, and resolving
that pushes it back.  The third iteration re-selects the already-resolved
(static wall, axis) candidate and evaluates `resolved[s2]` for a static
shape. -/
def squeezeWorld : World := mkWorld
  [mkObject (some 1) (0, 0) 0 0 (rectShape 0 0 10 10),
   mkStatic 0 0 (rectShape 8 0 30 10),
   mkStatic 0 0 (rectShape (-30) 0 (-1) 10)] 0

unseal Rat.add Rat.sub Rat.mul Rat.inv in
/-- C6 fails on the code: on `squeezeWorld` the overlap-correction loop
raises `KeyError` (line 469 looks up `resolved[s2]` where `s2` is a static
shape, and `resolved` only maps moving shapes) instead of reporting
failure through its return value. -/
theorem fix_colliding_static_keyerror :
    fcErr (fixCollidingModel true 6 squeezeWorld) = some Err.keyError := by
  decide

/-! ## Claim C7: distance covered by `update()` -/

/-- A moving square (speed 2) hitting a static wall with elasticity 0 at
`t = 1/2`. -/
def wallStopWorld : World := mkWorld
  [mkObject (some 1) (2, 0) 0 0 (rectShape 0 0 2 2),
   mkStatic 0 0 (rectShape 3 0 4 2)] 0

unseal Rat.add Rat.sub Rat.mul Rat.inv in
/-- Counterexample to C7 as stated: on `wallStopWorld` body 0 moves in a
single sub-step by `(1, 0)` — total distance 1 — while the magnitude of
its start-of-step velocity `(2, 0)` is 2 (the squared lengths `1` and `4`
differ).  A collision that removes speed (elasticity 0) makes the body
cover less distance than its initial speed. -/
theorem update_distance_cex :
    (updateModel 3 wallStopWorld).toOption.map (fun w => w.moveLog 0)
      = some [(1, 0)] ∧
    wallStopWorld.velAt 0 = (2, 0) ∧
    ¬ normSq (1, 0) = normSq (2, 0) := by
  refine ⟨by decide, rfl, by decide⟩

/-! ## Claim C10: no self-pairs in the touching relation -/

lemma candAt_facts {w : World} {i pos : Nat} {pq : Nat × Nat}
    {sq : Bool × Nat × Nat} {c : Cand} (h : candAt w i pos pq sq = some c) :
    ¬ c.o1 = c.o2 ∧ 0 ≤ c.t ∧ c.t < 1 := by
  unfold candAt at h
  split at h
  all_goals simp only [] at h
  all_goals split at h
  all_goals try exact Option.noConfusion h
  all_goals split at h
  all_goals try exact Option.noConfusion h
  all_goals split at h
  all_goals try exact Option.noConfusion h
  all_goals
    injection h with h2
    subst h2
    refine ⟨?_, ?_, ?_⟩
    · show ¬ pq.1 = sq.2.1
      omega
    · exact (pairCandidate_bounds _ _ _ _ _ _ _ _ _ _ _ (by assumption)).1
    · exact (pairCandidate_bounds _ _ _ _ _ _ _ _ _ _ _ (by assumption)).2

lemma findCollisions_facts {w : World} {c : Cand} (hc : c ∈ findCollisions w) :
    ¬ c.o1 = c.o2 ∧ 0 ≤ c.t ∧ c.t < 1 := by
  simp only [findCollisions, mem_lbind, List.mem_filterMap] at hc
  obtain ⟨i, _, pq, _, sq, _, hmk⟩ := hc
  exact candAt_facts hmk

lemma touchSet_no_self {T : List TEntry} {k : TKey} {r1 r2 : LRef}
    (hT : ∀ en ∈ T, ¬ en.key.o1 = en.key.o2) (hk : ¬ k.o1 = k.o2) :
    ∀ en ∈ touchSet T k r1 r2, ¬ en.key.o1 = en.key.o2 := by
  intro en hen
  unfold touchSet at hen
  split at hen
  · simp only [List.mem_map] at hen
    obtain ⟨a, ha, hae⟩ := hen
    by_cases hak : a.key = k
    · rw [if_pos hak] at hae
      subst hae
      exact hk
    · rw [if_neg hak] at hae
      subst hae
      exact hT a ha
  · rw [List.mem_append] at hen
    rcases hen with hen | hen
    · exact hT en hen
    · simp only [List.mem_singleton] at hen
      subst hen
      exact hk

lemma touchAdd_no_self {w : World} {c : Cand}
    (hw : ∀ en ∈ w.touching, ¬ en.key.o1 = en.key.o2) (hc : ¬ c.o1 = c.o2) :
    ∀ en ∈ (touchAdd w c).touching, ¬ en.key.o1 = en.key.o2 := by
  intro en hen
  simp only [touchAdd] at hen
  refine touchSet_no_self hw ?_ en hen
  split
  · exact fun hh => hc hh.symm
  · exact hc

lemma touching_respStatic (w : World) (c : Cand) (e f : ℚ) (v1 : ℚ × ℚ) :
    (respStatic w c e f v1).touching = w.touching := by
  unfold respStatic
  split <;> rfl

lemma touching_respMoving (w : World) (c : Cand) (e f : ℚ) (v1 v2 : ℚ × ℚ)
    (m1 m2 : ℚ) : (respMoving w c e f v1 v2 m1 m2).touching = w.touching := by
  unfold respMoving
  split <;> rfl

lemma map_pair_eq {r : Except Err World} {w' : World} {cont : Bool}
    (h : Except.map (fun w4 => (w4, true)) r = Except.ok (w', cont)) :
    r = Except.ok w' := by
  cases r with
  | error e => simp [Except.map] at h
  | ok w4 =>
    simp only [Except.map, Except.ok.injEq, Prod.mk.injEq] at h
    rw [h.1]

lemma respond_touching {w : World} {c : Cand} {w' : World}
    (h : respond w c = Except.ok w') : w'.touching = w.touching := by
  unfold respond at h
  split at h
  · injection h with h2
    subst h2
    rw [touching_respStatic]
  · simp only [] at h
    split at h
    · injection h with h2
      subst h2
      rw [touching_respMoving]
      split <;> rfl
    · exact Except.noConfusion h

lemma respond_hits {w : World} {c : Cand} {w' : World}
    (h : respond w c = Except.ok w') : w'.hits = w.hits ++ [c.o1, c.o2] := by
  unfold respond at h
  split at h
  · injection h with h2
    subst h2
    unfold respStatic
    split <;> rfl
  · simp only [] at h
    split at h
    · injection h with h2
      subst h2
      unfold respMoving
      split
      all_goals split
      all_goals rfl
    · exact Except.noConfusion h

lemma updateStep_no_self {w w' : World} {cont : Bool}
    (h : updateStep w = Except.ok (w', cont))
    (hw : ∀ en ∈ w.touching, ¬ en.key.o1 = en.key.o2) :
    ∀ en ∈ w'.touching, ¬ en.key.o1 = en.key.o2 := by
  unfold updateStep at h
  split at h
  · simp only [Except.ok.injEq, Prod.mk.injEq] at h
    rw [← h.1]
    exact hw
  next c hpick =>
    split at h
    · exact Except.noConfusion h
    · simp only [] at h
      have ht := respond_touching (map_pair_eq h)
      have ht2 : w'.touching = (touchAdd w c).touching := by
        rw [ht]
        split <;> rfl
      rw [ht2]
      exact touchAdd_no_self hw (findCollisions_facts (pickMin_mem hpick)).1

lemma updateLoop_no_self :
    ∀ (fuel : Nat) (w w' : World), updateLoop fuel w = Except.ok w' →
      (∀ en ∈ w.touching, ¬ en.key.o1 = en.key.o2) →
      ∀ en ∈ w'.touching, ¬ en.key.o1 = en.key.o2 := by
  intro fuel
  induction fuel with
  | zero => intro w w' h; exact Except.noConfusion h
  | succ n ih =>
    intro w w' h hw
    unfold updateLoop at h
    split at h
    · exact Except.noConfusion h
    next w1 hstep =>
      injection h with h2
      subst h2
      exact updateStep_no_self hstep hw
    next w1 hstep =>
      exact ih _ _ h (updateStep_no_self hstep hw)

lemma contactAt_no_self {w : World} {i pos : Nat} {pq : Nat × Nat}
    {sq : Bool × Nat × Nat} {en : TEntry} (h : contactAt w i pos pq sq = some en) :
    ¬ en.key.o1 = en.key.o2 := by
  unfold contactAt at h
  simp only [] at h
  split at h
  · exact Option.noConfusion h
  split at h
  · exact Option.noConfusion h
  next ho2 =>
    split at h
    · injection h with h2
      subst h2
      exact fun hh => ho2 hh.symm
    · exact Option.noConfusion h

lemma buildContact_no_self (w : World) :
    ∀ en ∈ buildContact w, ¬ en.key.o1 = en.key.o2 := by
  intro en hen
  simp only [buildContact, mem_lbind, List.mem_filterMap] at hen
  obtain ⟨i, _, pq, _, sq, _, hmk⟩ := hen
  exact contactAt_no_self hmk

/-- Boolean form: no entry of the touching relation pairs a body with
itself. -/
def noSelfB (w : World) : Bool :=
  w.touching.all fun en => decide (¬ en.key.o1 = en.key.o2)

lemma noSelfB_iff (w : World) :
    noSelfB w = true ↔ ∀ en ∈ w.touching, ¬ en.key.o1 = en.key.o2 := by
  simp [noSelfB, List.all_eq_true]

/-- Evaluate a state predicate on the result of `update()`; exceptional
results hold vacuously. -/
def holdsUpd (p : World → Bool) (r : Except Err World) : Bool :=
  match r with
  | Except.ok w => p w
  | Except.error _ => true

/-- Evaluate a state predicate on the result of `reinit()`. -/
def holdsReinit (p : World → Bool) (r : Except Err (World × Option Bool)) : Bool :=
  match r with
  | Except.ok ws => p ws.1
  | Except.error _ => true

/-- C10: the touching relation never pairs a body with itself.  `reinit()`
rebuilds the relation through `_update_contact`, whose candidate loop
skips self-pairs, so its result always satisfies the invariant; and
`update()` preserves the invariant (its candidate search also skips
self-pairs, and pruning only removes entries). -/
theorem touching_no_self_pairs :
    (∀ (rtn : Bool) (fuel : Nat) (w : World),
      holdsReinit noSelfB (reinitModel rtn fuel w) = true) ∧
    (∀ (fuel : Nat) (w : World), noSelfB w = true →
      holdsUpd noSelfB (updateModel fuel w) = true) := by
  constructor
  · intro rtn fuel w
    unfold reinitModel
    cases hfc : fixCollidingModel true fuel w with
    | error e => rfl
    | ok ws =>
      simp only [holdsReinit]
      rw [noSelfB_iff]
      exact fun en hen => buildContact_no_self ws.1 en hen
  · intro fuel w hw
    unfold updateModel
    cases hl : updateLoop fuel (initUpdate w) with
    | error e => rfl
    | ok w1 =>
      simp only [Except.map, holdsUpd]
      rw [noSelfB_iff]
      intro en hen
      have hmem : en ∈ w1.touching := List.mem_of_mem_filter hen
      exact updateLoop_no_self fuel (initUpdate w) w1 hl
        ((noSelfB_iff w).mp hw) en hmem

/-- Witness world for C10: one moving body, no partners. -/
def singleBodyWorld : World := mkWorld
  [mkObject (some 1) (0, 0) 0 0 (rectShape 0 0 1 1)] 0

unseal Rat.add Rat.sub Rat.mul Rat.inv in
/-- Witness for C10 at a concrete run. -/
theorem touching_no_self_pairs_witness :
    noSelfB singleBodyWorld = true ∧
    holdsUpd noSelfB (updateModel 1 singleBodyWorld) = true :=
  ⟨by decide, touching_no_self_pairs.2 1 singleBodyWorld (by decide)⟩

/-! ## Claim C7: supporting lemmas -/

lemma getD_get? [Inhabited α] (l : List α) (n : Nat) :
    l.getD n default = (l.get? n).getD default := by
  induction l generalizing n with
  | nil => cases n <;> rfl
  | cons a as ih =>
    cases n with
    | zero => rfl
    | succ n => simpa using ih n

lemma movingAt_mapWithIdx (w : World) (f : Nat → Obj → Obj)
    (hf : ∀ n o, (f n o).isObject = o.isObject) (b : Nat) :
    World.movingAt { w with objs := mapWithIdx f w.objs 0 } b = w.movingAt b := by
  unfold World.movingAt World.objAt
  simp only []
  rw [getD_get?, getD_get?, get?_mapWithIdx]
  cases w.objs.get? b with
  | none => rfl
  | some o => simp [hf]

lemma movingAt_moveAll (w : World) (t tr : ℚ) (b : Nat) :
    (moveAll w t tr).movingAt b = w.movingAt b := by
  unfold moveAll
  apply movingAt_mapWithIdx
  intro n o
  split <;> rfl

lemma movingAt_updateObjAt (w : World) (n : Nat) (f : Obj → Obj)
    (hf : ∀ o, (f o).isObject = o.isObject) (b : Nat) :
    (updateObjAt w n f).movingAt b = w.movingAt b := by
  unfold updateObjAt
  apply movingAt_mapWithIdx
  intro m o
  split
  · exact hf o
  · rfl

lemma moveAll_moveLog (w : World) (t tr : ℚ) (b : Nat) :
    (moveAll w t tr).moveLog b =
      if w.movingAt b = true ∧ ¬ w.remaining b = (0, 0) then
        w.moveLog b ++ [scaleV t (w.remaining b)]
      else w.moveLog b := rfl

lemma moveAll_remaining (w : World) (t tr : ℚ) (b : Nat) :
    (moveAll w t tr).remaining b =
      if w.movingAt b = true ∧ ¬ w.remaining b = (0, 0) ∧ ¬ tr = 0 then
        scaleV tr (w.remaining b)
      else w.remaining b := rfl

lemma setRem_remaining_other (w : World) (n : Nat) (v : ℚ × ℚ) (b : Nat)
    (hb : ¬ b = n) : (setRem w n v).remaining b = w.remaining b := by
  unfold setRem
  exact Function.update_noteq hb v w.remaining


lemma setVel_remaining (w : World) (n : Nat) (v : ℚ × ℚ) :
    (setVel w n v).remaining = w.remaining := rfl

lemma setVel_moveLog (w : World) (n : Nat) (v : ℚ × ℚ) :
    (setVel w n v).moveLog = w.moveLog := rfl

lemma setVel_hits (w : World) (n : Nat) (v : ℚ × ℚ) :
    (setVel w n v).hits = w.hits := rfl

lemma setRem_moveLog (w : World) (n : Nat) (v : ℚ × ℚ) :
    (setRem w n v).moveLog = w.moveLog := rfl

lemma setRem_hits (w : World) (n : Nat) (v : ℚ × ℚ) :
    (setRem w n v).hits = w.hits := rfl

lemma moveObjLines_remaining (w : World) (n : Nat) (v : ℚ × ℚ) :
    (moveObjLines w n v).remaining = w.remaining := rfl

lemma moveObjLines_moveLog (w : World) (n : Nat) (v : ℚ × ℚ) :
    (moveObjLines w n v).moveLog = w.moveLog := rfl

lemma movingAt_setVel (w : World) (n : Nat) (v : ℚ × ℚ) (b : Nat) :
    (setVel w n v).movingAt b = w.movingAt b := by
  unfold setVel
  apply movingAt_updateObjAt
  intro o
  rfl

lemma movingAt_setRem (w : World) (n : Nat) (v : ℚ × ℚ) (b : Nat) :
    (setRem w n v).movingAt b = w.movingAt b := rfl

lemma movingAt_moveObjLines (w : World) (n : Nat) (v : ℚ × ℚ) (b : Nat) :
    (moveObjLines w n v).movingAt b = w.movingAt b := by
  unfold moveObjLines
  apply movingAt_updateObjAt
  intro o
  rfl

lemma frictionApply_untouched (w : World) (oi axis : Nat) (mb upr F v0 : ℚ)
    (b : Nat) (hb : ¬ b = oi) :
    (frictionApply w oi axis mb upr F v0).remaining b = w.remaining b ∧
    (frictionApply w oi axis mb upr F v0).moveLog b = w.moveLog b ∧
    (frictionApply w oi axis mb upr F v0).movingAt b = w.movingAt b := by
  unfold frictionApply
  refine ⟨?_, rfl, ?_⟩
  · simp only [setRem_remaining_other _ _ _ b hb, setVel_remaining]
  · simp only [movingAt_setRem, movingAt_setVel]

lemma respStatic_untouched (w : World) (c : Cand) (e f : ℚ) (v1 : ℚ × ℚ)
    (b : Nat) (hb : ¬ b = c.o1) :
    (respStatic w c e f v1).remaining b = w.remaining b ∧
    (respStatic w c e f v1).moveLog b = w.moveLog b ∧
    (respStatic w c e f v1).movingAt b = w.movingAt b ∧
    (respStatic w c e f v1).hits = w.hits := by
  unfold respStatic
  split <;>
    exact ⟨by simp only [setRem_remaining_other _ _ _ b hb, setVel_remaining],
      by simp only [setRem_moveLog, setVel_moveLog],
      by simp only [movingAt_setRem, movingAt_setVel],
      by simp only [setRem_hits, setVel_hits]⟩

lemma respMoving_untouched (w : World) (c : Cand) (e f : ℚ) (v1 v2 : ℚ × ℚ)
    (m1 m2 : ℚ) (b : Nat) (hb1 : ¬ b = c.o1) (hb2 : ¬ b = c.o2) :
    (respMoving w c e f v1 v2 m1 m2).remaining b = w.remaining b ∧
    (respMoving w c e f v1 v2 m1 m2).moveLog b = w.moveLog b ∧
    (respMoving w c e f v1 v2 m1 m2).movingAt b = w.movingAt b ∧
    (respMoving w c e f v1 v2 m1 m2).hits = w.hits := by
  unfold respMoving frictionApply
  split <;>
    exact ⟨by simp only [setRem_remaining_other _ _ _ b hb1,
        setRem_remaining_other _ _ _ b hb2, setVel_remaining],
      by simp only [setRem_moveLog, setVel_moveLog],
      by simp only [movingAt_setRem, movingAt_setVel],
      by simp only [setRem_hits, setVel_hits]⟩

lemma respond_untouched {w : World} {c : Cand} {w' : World} (b : Nat)
    (h : respond w c = Except.ok w') (hb1 : ¬ b = c.o1) (hb2 : ¬ b = c.o2) :
    w'.remaining b = w.remaining b ∧
    w'.moveLog b = w.moveLog b ∧
    w'.movingAt b = w.movingAt b ∧
    w'.hits = w.hits ++ [c.o1, c.o2] := by
  have hhit := respond_hits h
  unfold respond at h
  split at h
  · injection h with h2
    subst h2
    obtain ⟨ha, hbq, hcq, _⟩ := respStatic_untouched
      { w with hits := w.hits ++ [c.o1, c.o2] } c _ _ _ b hb1
    exact ⟨ha, hbq, hcq, hhit⟩
  · simp only [] at h
    split at h
    · injection h with h2
      subst h2
      refine ⟨?_, ?_, ?_, hhit⟩
      · rw [(respMoving_untouched _ c _ _ _ _ _ _ b hb1 hb2).1]
        split <;> rfl
      · rw [(respMoving_untouched _ c _ _ _ _ _ _ b hb1 hb2).2.1]
        split <;> rfl
      · rw [(respMoving_untouched _ c _ _ _ _ _ _ b hb1 hb2).2.2.1]
        split
        · rw [movingAt_moveObjLines]
          rfl
        · rfl
    · exact Except.noConfusion h

lemma scaleV_scaleV (s t : ℚ) (v : ℚ × ℚ) :
    scaleV s (scaleV t v) = scaleV (s * t) v := by
  simp only [scaleV, Prod.mk.injEq]
  constructor <;> ring

lemma scaleV_one (v : ℚ × ℚ) : scaleV 1 v = v := by
  simp [scaleV]

lemma vsum_append (A B : List (ℚ × ℚ)) :
    vsum (A ++ B) = ((vsum A).1 + (vsum B).1, (vsum A).2 + (vsum B).2) := by
  induction A with
  | nil => simp [vsum]
  | cons a as ih =>
    show (a.1 + (vsum (as ++ B)).1, a.2 + (vsum (as ++ B)).2) = _
    rw [ih]
    show _ = ((a.1 + (vsum as).1) + (vsum B).1, (a.2 + (vsum as).2) + (vsum B).2)
    simp only [Prod.mk.injEq]
    constructor <;> ring

lemma vsum_single (x : ℚ × ℚ) : vsum [x] = (x.1, x.2) := by
  simp [vsum]

/-- The loop invariant behind the amended C7: for a body `b` that no
handled collision has touched, the remaining velocity is a nonnegative
multiple of the start-of-step velocity `v0`, every logged displacement is
such a multiple, and logged displacements plus the remaining velocity sum
to `v0`. -/
def distInv (v0 : ℚ × ℚ) (b : Nat) (w : World) : Prop :=
  w.movingAt b = true ∧
  (∃ q : ℚ, 0 ≤ q ∧ w.remaining b = scaleV q v0) ∧
  (∀ dv ∈ w.moveLog b, ∃ q : ℚ, 0 ≤ q ∧ dv = scaleV q v0) ∧
  ((vsum (w.moveLog b)).1 + (w.remaining b).1,
   (vsum (w.moveLog b)).2 + (w.remaining b).2) = v0

lemma moveAll_dist {v0 : ℚ × ℚ} {b : Nat} {w : World} {t tr : ℚ}
    (hI : distInv v0 b w) (ht0 : 0 ≤ t) (htr0 : 0 ≤ tr) (hsum : t + tr = 1) :
    (moveAll w t tr).movingAt b = true ∧
    (∃ q : ℚ, 0 ≤ q ∧ (moveAll w t tr).remaining b = scaleV q v0) ∧
    (∀ dv ∈ (moveAll w t tr).moveLog b, ∃ q : ℚ, 0 ≤ q ∧ dv = scaleV q v0) ∧
    (¬ tr = 0 →
      ((vsum ((moveAll w t tr).moveLog b)).1 + ((moveAll w t tr).remaining b).1,
       (vsum ((moveAll w t tr).moveLog b)).2 + ((moveAll w t tr).remaining b).2)
        = v0) ∧
    (tr = 0 → vsum ((moveAll w t tr).moveLog b) = v0) := by
  obtain ⟨hmv, ⟨q, hq0, hqe⟩, hmul, hsum4⟩ := hI
  rw [moveAll_moveLog, moveAll_remaining, movingAt_moveAll]
  by_cases h0 : w.remaining b = (0, 0)
  · have hc1 : ¬ (w.movingAt b = true ∧ ¬ w.remaining b = (0, 0)) := by tauto
    have hc2 : ¬ (w.movingAt b = true ∧ ¬ w.remaining b = (0, 0) ∧ ¬ tr = 0) := by
      tauto
    rw [if_neg hc1, if_neg hc2]
    refine ⟨hmv, ⟨q, hq0, hqe⟩, hmul, fun _ => hsum4, fun _ => ?_⟩
    rw [h0] at hsum4
    simpa using hsum4
  · have hmul2 : ∀ dv ∈ w.moveLog b ++ [scaleV t (w.remaining b)],
        ∃ qq : ℚ, 0 ≤ qq ∧ dv = scaleV qq v0 := by
      intro dv hdv
      rcases List.mem_append.mp hdv with hdv | hdv
      · exact hmul dv hdv
      · rw [List.mem_singleton] at hdv
        subst hdv
        exact ⟨t * q, mul_nonneg ht0 hq0, by rw [hqe, scaleV_scaleV]⟩
    by_cases htr : tr = 0
    · have hc1 : w.movingAt b = true ∧ ¬ w.remaining b = (0, 0) := ⟨hmv, h0⟩
      have hc2 : ¬ (w.movingAt b = true ∧ ¬ w.remaining b = (0, 0) ∧ ¬ tr = 0) := by
        tauto
      rw [if_pos hc1, if_neg hc2]
      refine ⟨hmv, ⟨q, hq0, hqe⟩, hmul2, fun h => absurd htr h, fun _ => ?_⟩
      have ht1 : t = 1 := by linarith
      subst ht1
      rw [vsum_append, scaleV_one, vsum_single]
      simp only []
      rw [← hsum4]
    · have hc1 : w.movingAt b = true ∧ ¬ w.remaining b = (0, 0) := ⟨hmv, h0⟩
      have hc2 : w.movingAt b = true ∧ ¬ w.remaining b = (0, 0) ∧ ¬ tr = 0 :=
        ⟨hmv, h0, htr⟩
      rw [if_pos hc1, if_pos hc2]
      refine ⟨hmv, ⟨tr * q, mul_nonneg htr0 hq0, by rw [hqe, scaleV_scaleV]⟩,
        hmul2, fun _ => ?_, fun h => absurd h htr⟩
      rw [vsum_append, vsum_single]
      simp only [scaleV]
      rw [Prod.ext_iff] at hsum4 ⊢
      simp only [] at hsum4 ⊢
      constructor
      · have hh : t * (w.remaining b).1 + tr * (w.remaining b).1
            = (w.remaining b).1 := by
          rw [← add_mul, hsum, one_mul]
        have h1 := hsum4.1
        linarith
      · have hh : t * (w.remaining b).2 + tr * (w.remaining b).2
            = (w.remaining b).2 := by
          rw [← add_mul, hsum, one_mul]
        have h2 := hsum4.2
        linarith

lemma map_pair_cont {r : Except Err World} {w' : World} {cont : Bool}
    (h : Except.map (fun w4 => (w4, true)) r = Except.ok (w', cont)) :
    cont = true := by
  cases r with
  | error e => simp [Except.map] at h
  | ok w4 =>
    simp only [Except.map, Except.ok.injEq, Prod.mk.injEq] at h
    exact h.2.symm

lemma updateStep_dist {v0 : ℚ × ℚ} {b : Nat} {w w' : World} {cont : Bool}
    (h : updateStep w = Except.ok (w', cont)) (hb : b ∉ w'.hits)
    (hI : distInv v0 b w) :
    b ∉ w.hits ∧
    (cont = true → distInv v0 b w') ∧
    (cont = false →
      (∀ dv ∈ w'.moveLog b, ∃ q : ℚ, 0 ≤ q ∧ dv = scaleV q v0) ∧
      vsum (w'.moveLog b) = v0) := by
  unfold updateStep at h
  split at h
  · simp only [Except.ok.injEq, Prod.mk.injEq] at h
    obtain ⟨hw', hcont⟩ := h
    subst hw'
    have hI2 : distInv v0 b { w with totalTr := w.totalTr * 0 } := hI
    have hres := moveAll_dist hI2 (zero_le_one) (le_refl 0)
      (show (1 : ℚ) + 0 = 1 from by norm_num)
    refine ⟨hb, ?_, ?_⟩
    · intro hcc
      rw [hcc] at hcont
      exact Bool.noConfusion hcont
    · intro _
      exact ⟨hres.2.2.1, hres.2.2.2.2 rfl⟩
  next c hpick =>
    split at h
    · exact Except.noConfusion h
    · simp only [] at h
      have hr := map_pair_eq h
      have hcont := map_pair_cont h
      have hfacts := findCollisions_facts (pickMin_mem hpick)
      have hW3hits : w'.hits = w.hits ++ [c.o1, c.o2] := by
        rw [respond_hits hr]
        split <;> rfl
      have hb3 : ¬ b ∈ w.hits ∧ ¬ b = c.o1 ∧ ¬ b = c.o2 := by
        rw [hW3hits] at hb
        simp only [List.mem_append, List.mem_cons, List.mem_singleton,
          not_or] at hb
        tauto
      obtain ⟨hrem, hlog, hmov, _⟩ := respond_untouched b hr hb3.2.1 hb3.2.2
      refine ⟨hb3.1, ?_, ?_⟩
      · intro _
        by_cases ht0 : ¬ c.t = 0
        · rw [if_pos ht0] at hrem hlog hmov
          have hI2 : distInv v0 b
              ({ touchAdd w c with
                  totalTr := (touchAdd w c).totalTr * (1 - c.t) }) := hI
          have htrne : ¬ (1 - c.t) = 0 := by
            have hlt := hfacts.2.2
            intro hh
            rw [sub_eq_zero] at hh
            rw [← hh] at hlt
            exact lt_irrefl 1 hlt
          have hm := moveAll_dist hI2 hfacts.2.1
            (show (0 : ℚ) ≤ 1 - c.t from by linarith [hfacts.2.2]) (by ring)
          refine ⟨?_, ?_, ?_, ?_⟩
          · rw [hmov]
            exact hm.1
          · rw [hrem]
            exact hm.2.1
          · rw [hlog]
            exact hm.2.2.1
          · rw [hlog, hrem]
            exact hm.2.2.2.1 htrne
        · rw [if_neg ht0] at hrem hlog hmov
          refine ⟨?_, ?_, ?_, ?_⟩
          · rw [hmov]
            exact hI.1
          · rw [hrem]
            exact hI.2.1
          · rw [hlog]
            exact hI.2.2.1
          · rw [hlog, hrem]
            exact hI.2.2.2
      · intro hcf
        rw [hcf] at hcont
        exact Bool.noConfusion hcont

lemma updateStep_hits_mono {w w1 : World} {cont : Bool}
    (h : updateStep w = Except.ok (w1, cont)) : w.hits ⊆ w1.hits := by
  unfold updateStep at h
  split at h
  · simp only [Except.ok.injEq, Prod.mk.injEq] at h
    rw [← h.1]
    exact fun x hx => hx
  next c hpick =>
    split at h
    · exact Except.noConfusion h
    · simp only [] at h
      have hr := map_pair_eq h
      have hW3 : w1.hits = w.hits ++ [c.o1, c.o2] := by
        rw [respond_hits hr]
        split <;> rfl
      rw [hW3]
      exact List.subset_append_left _ _

lemma updateLoop_hits_mono :
    ∀ (fuel : Nat) (w w' : World), updateLoop fuel w = Except.ok w' →
      w.hits ⊆ w'.hits := by
  intro fuel
  induction fuel with
  | zero => intro w w' h; exact Except.noConfusion h
  | succ n ih =>
    intro w w' h
    unfold updateLoop at h
    split at h
    · exact Except.noConfusion h
    next w1 hstep =>
      injection h with h2
      subst h2
      exact updateStep_hits_mono hstep
    next w1 hstep =>
      exact fun x hx => ih _ _ h (updateStep_hits_mono hstep hx)

lemma updateLoop_dist {v0 : ℚ × ℚ} {b : Nat} :
    ∀ (fuel : Nat) (w w' : World), updateLoop fuel w = Except.ok w' →
      b ∉ w'.hits → distInv v0 b w →
      (∀ dv ∈ w'.moveLog b, ∃ q : ℚ, 0 ≤ q ∧ dv = scaleV q v0) ∧
      vsum (w'.moveLog b) = v0 := by
  intro fuel
  induction fuel with
  | zero => intro w w' h; exact Except.noConfusion h
  | succ n ih =>
    intro w w' h hb hI
    unfold updateLoop at h
    split at h
    · exact Except.noConfusion h
    next w1 hstep =>
      injection h with h2
      subst h2
      exact (updateStep_dist hstep hb hI).2.2 rfl
    next w1 hstep =>
      have hb1 : b ∉ w1.hits := fun hx => hb (updateLoop_hits_mono n w1 w' h hx)
      exact ih _ _ h hb ((updateStep_dist hstep hb1 hI).2.1 rfl)

lemma isNonnegMul_of_scale {dv v : ℚ × ℚ} (q : ℚ) (hq : 0 ≤ q)
    (hdv : dv = scaleV q v) : isNonnegMul dv v = true := by
  subst hdv
  unfold isNonnegMul
  simp only []
  split
  next hv =>
    rw [hv]
    simp [scaleV]
  next hv =>
    by_cases h1 : v.1 = 0
    · have h2 : ¬ v.2 = 0 := by
        intro h2
        exact hv (by rw [Prod.ext_iff]; exact ⟨h1, h2⟩)
      rw [if_pos h1]
      have hc : (scaleV q v).2 / v.2 = q := by
        show (q * v.2) / v.2 = q
        rw [mul_div_assoc, div_self h2, mul_one]
      rw [hc]
      simp [hq]
    · rw [if_neg h1]
      have hc : (scaleV q v).1 / v.1 = q := by
        show (q * v.1) / v.1 = q
        rw [mul_div_assoc, div_self h1, mul_one]
      rw [hc]
      simp [hq]

/-- C7 (amended): a moving body involved in no handled collision during
the step covers exactly its full start-of-step velocity: its sub-step
displacements are nonnegative scalar multiples of that velocity and sum
to it (so the distances travelled sum to the velocity's magnitude, with
no skipped distance).  Bodies whose collisions change their speed travel
a different total distance (`update_distance_cex`). -/
theorem update_untouched_full_distance (fuel : Nat) (w : World) (b : Nat)
    (ds : List (ℚ × ℚ)) (h : untouchedDisp fuel w b = some ds) :
    vsum ds = w.velAt b ∧
    (ds.all fun dv => isNonnegMul dv (w.velAt b)) = true := by
  unfold untouchedDisp at h
  cases hl : updateLoop fuel (initUpdate w) with
  | error e =>
    have hm : updateModel fuel w = Except.error e := by
      unfold updateModel
      rw [hl]
      rfl
    rw [hm] at h
    exact Option.noConfusion h
  | ok wL =>
    have hm : updateModel fuel w = Except.ok (pruneWorld wL) := by
      unfold updateModel
      rw [hl]
      rfl
    rw [hm] at h
    split at h
    · exact Option.noConfusion h
    next w1 heqw =>
      injection heqw with heqw2
      subst heqw2
      split at h
      · exact Option.noConfusion h
      next hcond =>
      injection h with h2
      push_neg at hcond
      have hInit : distInv (w.velAt b) b (initUpdate w) := by
        refine ⟨hcond.2, ⟨1, by norm_num, (scaleV_one _).symm⟩, ?_, ?_⟩
        · intro dv hdv
          exact absurd hdv (List.not_mem_nil dv)
        · show ((vsum []).1 + (w.velAt b).1, (vsum []).2 + (w.velAt b).2)
            = w.velAt b
          simp [vsum]
      obtain ⟨hmul, hsum⟩ := updateLoop_dist fuel (initUpdate w) wL hl
        hcond.1 hInit
      constructor
      · rw [← h2]
        exact hsum
      · rw [← h2, List.all_eq_true]
        intro dv hdv
        obtain ⟨q, hq0, hqe⟩ := hmul dv hdv
        exact isNonnegMul_of_scale q hq0 hqe

/-- A single moving body with nothing to hit. -/
def freeFlightWorld : World := mkWorld
  [mkObject (some 1) (2, 0) 0 0 (rectShape 0 0 1 1)] 0

unseal Rat.add Rat.sub Rat.mul Rat.inv in
/-- Witness for the amended C7 at a concrete run: the free-flying body's
single displacement `(2, 0)` sums to its initial velocity. -/
theorem update_untouched_full_distance_witness :
    untouchedDisp 2 freeFlightWorld 0 = some [(2, 0)] ∧
    vsum [(2, 0)] = freeFlightWorld.velAt 0 ∧
    ([((2 : ℚ), (0 : ℚ))].all fun dv => isNonnegMul dv (freeFlightWorld.velAt 0))
      = true :=
  ⟨by decide, update_untouched_full_distance 2 freeFlightWorld 0 [(2, 0)] (by decide)⟩
